import Mathlib

/-
Verification of the check engine of the `vale` prose linter
(package `check`, `check.go`; package `lint`, `lint.go`; package `core`).

The Go code is shallowly embedded: each matcher function from `check.go`
becomes a Lean function with the same control flow, fold-by-fold.  Results
of the external regular-expression engine (`matloob.io/regexp`, an external
collaborator per the specification) are passed in as explicit match data,
in the same shape the Go API returns them:
  - `FindAllStringIndex`        : lists of `[start, end]` pairs,
  - `FindAllStringSubmatchIndex`: lists of flat index lists with `-1`
    standing for a group that did not participate,
  - `FindAllStringSubmatch`     : lists of lists of matched substrings.
Message formatting (`core.FormatMessage`) affects only the rendered text of
an alert and no claim mentions it, so `Alert` carries the structural fields
(check name, severity, span, link, hide) and omits the rendered message.
All text positions are character offsets; the inputs exercised are ASCII,
where Go's byte offsets coincide with character offsets.
-/

namespace Vale

/-- Go `txt[i:j]` slicing (character offsets; ASCII inputs make this agree
with Go's byte slicing). -/
def goSlice (s : String) (i j : Int) : String :=
  ((s.data.take j.toNat).drop i.toNat).asString

/-- Go `strings.TrimSpace` for ASCII whitespace. -/
def isSpaceGo (c : Char) : Bool :=
  c == ' ' || c == '\t' || c == '\n' || c == '\x0b' || c == '\x0c' || c == '\r'

/-- Go `strings.TrimSpace` (ASCII fragment). -/
def trimGo (s : String) : String :=
  ((s.data.dropWhile isSpaceGo).reverse.dropWhile isSpaceGo).reverse.asString

/-- Go `strings.ToLower` (ASCII fragment). -/
def toLowerGo (s : String) : String :=
  (s.data.map Char.toLower).asString

/-- Go `strings.HasPrefix`. -/
def strStarts (s pre : String) : Bool :=
  pre.data.isPrefixOf s.data

/-- Accumulator for `splitDot`. -/
def splitDotCore : List Char → List Char → List String
  | [], acc => [acc.reverse.asString]
  | c :: cs, acc =>
    if c == '.' then acc.reverse.asString :: splitDotCore cs []
    else splitDotCore cs (c :: acc)

/-- Go `strings.Split(s, ".")`: always returns at least one element. -/
def splitDot (s : String) : List String :=
  splitDotCore s.data []

/-- Go `strings.Count` (non-overlapping occurrences), scanning left to
right and skipping past each match; `skip` counts characters still covered
by the previous match. -/
def countSubstrCore (pat : List Char) : List Char → Nat → Nat
  | [], _ => 0
  | c :: cs, skip =>
    if skip > 0 then countSubstrCore pat cs (skip - 1)
    else if pat.isPrefixOf (c :: cs) then 1 + countSubstrCore pat cs (pat.length - 1)
    else countSubstrCore pat cs 0

/-- Go `strings.Count`. -/
def countSubstr (s sub : String) : Nat :=
  if sub.data.isEmpty then s.data.length + 1 else countSubstrCore sub.data s.data 0

/-- Modelled from the spec: `core.StringInSlice` (membership test used
throughout the dispatcher and matchers; core's implementation is not under
`src/`). -/
def StringInSlice (a : String) (l : List String) : Bool :=
  l.any (fun s => s == a)

/-- Modelled from the spec: `core.AllStringsInSlice` (are all strings of
the first list present in the second; not under `src/`). -/
def AllStringsInSlice (as l : List String) : Bool :=
  as.all (fun a => StringInSlice a l)

/-- Modelled from the spec: `core.HasAnyPrefix` (does the string start
with any of the given strings; not under `src/`). -/
def hasAnyPrefixGo (s : String) (ps : List String) : Bool :=
  ps.any (fun p => strStarts s p)

/-- Go's `for idx, v := range slice`: the elements of a slice paired with
their indices, starting from `n`. -/
def withIdx (n : Nat) : List α → List (Nat × α)
  | [] => []
  | a :: as => (n, a) :: withIdx (n + 1) as

/-- A `\w` word character (regex engine model, ASCII fragment). -/
def isWordCharGo (c : Char) : Bool :=
  c.isAlphanum || c == '_'

/-- Model of the external regex engine's `FindAllStringIndex` for the
pattern `(?i)(\w+)` (the compiled form of a Repetition rule with tokens
`[\w+]`): the maximal runs of word characters, as `[start, end]` pairs. -/
def wordRunsCore : List Char → Nat → Option Nat → List (List Int)
  | [], _, none => []
  | [], i, some st => [[(st : Int), (i : Int)]]
  | c :: cs, i, none =>
    if isWordCharGo c then wordRunsCore cs (i + 1) (some i)
    else wordRunsCore cs (i + 1) none
  | c :: cs, i, some st =>
    if isWordCharGo c then wordRunsCore cs (i + 1) (some st)
    else [(st : Int), (i : Int)] :: wordRunsCore cs (i + 1) none

/-- All maximal word-character runs of a string. -/
def wordRuns (s : String) : List (List Int) :=
  wordRunsCore s.data 0 none

/-- Structure `core.Alert` (structural fields; the rendered message and description
are produced by `core.FormatMessage`, which no claim mentions). -/
structure Alert where
  Check : String
  Severity : String
  Span : List Int
  Link : String
  Hide : Bool
  deriving DecidableEq

/-- The condition `mat != -1 && idx > 0 && idx%2 == 0` that both
`checkSubstitution` and `checkConsistency` test for each entry of a
`FindAllStringSubmatchIndex` result: a start offset of a capturing group
that participated in the match. -/
def capturePred (p : Nat × Int) : Bool :=
  p.2 != -1 && decide (0 < p.1) && decide (p.1 % 2 = 0)

/-- Fields of a `conditional` rule definition used by `checkConditional`
(`Definition` common fields plus `Exceptions`; the message fields are not
modelled, see `Alert`). -/
structure Conditional where
  Name : String
  Level : String
  Link : String
  Exceptions : List String

/-- Function `checkConditional` from `check.go`: record the first capture of every
match of `second` into the file's sequence memory, then alert on every
match of `first` whose text is in neither the memory nor the exceptions.
`secondMatches` is `r[0].FindAllStringSubmatch(txt, -1)` and `firstLocs`
is `r[1].FindAllStringIndex(txt, -1)`; `seqs` is `f.Sequences` on entry.
Returns the alerts and the updated `f.Sequences`. -/
def checkConditional (txt : String) (chk : Conditional) (seqs : List String)
    (secondMatches : List (List String)) (firstLocs : List (List Int)) :
    List Alert × List String :=
  let seqs2 := secondMatches.foldl
    (fun acc mat => if 1 < mat.length then acc ++ [mat.getD 1 ""] else acc) seqs
  let alerts := firstLocs.foldl
    (fun acc loc =>
      let s := goSlice txt (loc.getD 0 0) (loc.getD 1 0)
      if !StringInSlice s seqs2 && !StringInSlice s chk.Exceptions then
        acc ++ [{ Check := chk.Name, Severity := chk.Level, Span := loc,
                  Link := chk.Link, Hide := false }]
      else acc) []
  (alerts, seqs2)

/-- Fields of an `occurrence` rule definition used by `checkOccurrence`
and `addOccurrenceCheck`. -/
structure Occurrence where
  Name : String
  Level : String
  Link : String
  Token : String
  Max : Int
  deriving DecidableEq

/-- Function `checkOccurrence` from `check.go`: if the number of matches exceeds
`lim`, emit one alert spanning from the start of the first match to the
end of the last one.  `locs` is `r.FindAllStringIndex(txt, -1)`. -/
def checkOccurrence (chk : Occurrence) (locs : List (List Int)) (lim : Int) :
    List Alert :=
  if decide ((locs.length : Int) > lim) then
    [{ Check := chk.Name, Severity := chk.Level,
       Span := [(locs.getD 0 []).getD 0 0, (locs.getD (locs.length - 1) []).getD 1 0],
       Link := chk.Link, Hide := false }]
  else []

/-- Function `Manager.updateAllChecks` restricted to occurrence rules: register the
compiled check under its name (`mgr.AllChecks[chkDef.Name] = chk`; the
registry is modelled as an association list). -/
def updateAllChecksOcc (m : List (String × Occurrence)) (chk : Occurrence) :
    List (String × Occurrence) :=
  m ++ [(chk.Name, chk)]

/-- Function `Manager.addOccurrenceCheck` from `check.go`: the check is registered
only when the token pattern compiled (`compileOk`, the result of
`core.CheckError(err, core.RegexError)`) and `chkDef.Max >= 1`. -/
def addOccurrenceCheck (compileOk : Bool) (chk : Occurrence)
    (m : List (String × Occurrence)) : List (String × Occurrence) :=
  if compileOk && decide (chk.Max ≥ 1) then updateAllChecksOcc m chk else m

/-- Fields of a `repetition` rule definition used by `checkRepetition`. -/
structure Repetition where
  Name : String
  Level : String
  Link : String
  Max : Int
  Ignorecase : Bool

/-- Loop state of `checkRepetition`: the previous match text and location,
the running count of consecutive equal matches, and the emitted alerts. -/
structure RepState where
  prev : String
  ploc : List Int
  count : Int
  alerts : List Alert

/-- One iteration of the `checkRepetition` loop body. -/
def repStep (txt : String) (chk : Repetition) (st : RepState) (loc : List Int) :
    RepState :=
  let curr := trimGo (goSlice txt (loc.getD 0 0) (loc.getD 1 0))
  let hit :=
    if chk.Ignorecase then toLowerGo curr == toLowerGo st.prev && curr != ""
    else curr == st.prev && curr != ""
  let count := if hit then st.count + 1 else st.count
  if hit && decide (count > chk.Max) then
    { prev := curr, ploc := loc, count := 0,
      alerts := st.alerts ++
        [{ Check := chk.Name, Severity := chk.Level,
           Span := [st.ploc.getD 0 0, loc.getD 1 0], Link := chk.Link,
           Hide := false }] }
  else { prev := curr, ploc := loc, count := count, alerts := st.alerts }

/-- Function `checkRepetition` from `check.go`.  `locs` is
`r.FindAllStringIndex(txt, -1)`. -/
def checkRepetition (txt : String) (chk : Repetition) (locs : List (List Int)) :
    List Alert :=
  (locs.foldl (repStep txt chk) { prev := "", ploc := [], count := 0, alerts := [] }).alerts

/-- Fields of a `substitution` rule definition used by
`checkSubstitution` and `addSubstitutionCheck`. -/
structure Substitution where
  Name : String
  Level : String
  Link : String
  POS : String

/-- One iteration of the inner `checkSubstitution` loop over the entries
of one submatch-index list; `st` is the `(pos, alerts)` pair of mutable
state.  `oracle` models the external `core.CheckPOS`. -/
def subStep (txt : String) (chk : Substitution) (repl : List String)
    (oracle : List Int → String → String → Bool) (submat : List Int)
    (st : Bool × List Alert) (p : Nat × Int) : Bool × List Alert :=
  if capturePred p then
    let loc : List Int := [p.2, submat.getD (p.1 + 1) 0]
    let expected := repl.getD (p.1 / 2 - 1) ""
    let observed := trimGo (goSlice txt (loc.getD 0 0) (loc.getD 1 0))
    if expected != observed then
      let pos := if chk.POS != "" then oracle loc chk.POS txt else st.1
      (pos, st.2 ++ [{ Check := chk.Name, Severity := chk.Level, Span := loc,
                       Link := chk.Link, Hide := pos }])
    else st
  else st

/-- Function `checkSubstitution` from `check.go`: for every capturing group that
participated in a match, compare the trimmed matched text with the
replacement assigned to that group and alert when they differ.  `matches`
is `r.FindAllStringSubmatchIndex(txt, -1)`; the early
`!r.MatchString(txt)` exit corresponds to `matches` being empty. -/
def checkSubstitution (txt : String) (chk : Substitution) (repl : List String)
    (oracle : List Int → String → String → Bool) (mats : List (List Int)) :
    List Alert :=
  if mats.isEmpty then []
  else
    (mats.foldl
      (fun st submat => (withIdx 0 submat).foldl (subStep txt chk repl oracle submat) st)
      (false, [])).2

/-- Fields of a `consistency` rule definition used by `checkConsistency`
(after `addConsistencyCheck` has set `Extends` to the qualified rule name
and `Name` to the per-pair name). -/
structure Consistency where
  Name : String
  Extends : String
  Level : String
  Link : String

/-- One iteration of the inner `checkConsistency` loop over the entries of
one submatch-index list; the state is the `(loc, f.Sequences)` pair.  Each
participating capturing group updates `loc` to its bounds and appends the
group's name (`r.SubexpNames()[idx/2]`) to the sequence memory. -/
def consisStep (submat : List Int) (names : List String)
    (st : List Int × List String) (p : Nat × Int) : List Int × List String :=
  if capturePred p then
    ([p.2, submat.getD (p.1 + 1) 0], st.2 ++ [names.getD (p.1 / 2) ""])
  else st

/-- The outer `checkConsistency` loop body: scan one submatch-index list. -/
def consisBlockFold (names : List String) (st : List Int × List String)
    (submat : List Int) : List Int × List String :=
  (withIdx 0 submat).foldl (consisStep submat names) st

/-- Function `checkConsistency` from `check.go` for one block of text.  `names` is
`r.SubexpNames()` and `opts` the two generated group names of the `either`
pair; `mats` is `r.FindAllStringSubmatchIndex(txt, -1)` and `seqs` is
`f.Sequences` on entry.  One alert is emitted when the block had a match
and both group names are now in the sequence memory; its span is the `loc`
left by the scan and its check name is `chk.Extends` (the code reassigns
`chk.Name = chk.Extends` before `makeAlert`). -/
def checkConsistency (_txt : String) (chk : Consistency) (names opts : List String)
    (seqs : List String) (mats : List (List Int)) : List Alert × List String :=
  let st := mats.foldl (consisBlockFold names) ([], seqs)
  if !mats.isEmpty && AllStringsInSlice opts st.2 then
    ([{ Check := chk.Extends, Severity := chk.Level, Span := st.1,
        Link := chk.Link, Hide := false }], st.2)
  else ([], st.2)

/-- A whole-file run of one compiled consistency pair: the dispatcher calls
the rule once per block, threading `f.Sequences` through and accumulating
the alerts on the file.  Each block is given as its text together with the
submatch-index data for it. -/
def consistencyFile (chk : Consistency) (names opts : List String)
    (blocks : List (String × List (List Int))) (seqs : List String) :
    List Alert × List String :=
  blocks.foldl
    (fun st b =>
      let r := checkConsistency b.1 chk names opts st.2 b.2
      (st.1 ++ r.1, r.2))
    ([], seqs)

/-- One iteration of the `addSubstitutionCheck` loop over the `swap` map:
a pattern is skipped when its `(` count differs from its `?:` count and
also differs from its `\(` count; otherwise it is appended to the token
alternation and its replacement to the replacement table. -/
def swapStep (st : String × List String) (pr : String × String) :
    String × List String :=
  let opens := countSubstr pr.1 "("
  if opens != countSubstr pr.1 "?:" && opens != countSubstr pr.1 "\\(" then st
  else (st.1 ++ "(" ++ pr.1 ++ ")|", st.2 ++ [pr.2])

/-- The `swap` loop of `Manager.addSubstitutionCheck` from `check.go`:
builds the token alternation string and the replacement table.  The Go
`swap` map is given as a list of (pattern, replacement) pairs. -/
def buildSwap (swap : List (String × String)) : String × List String :=
  swap.foldl swapStep ("", [])

/-- A `lint.Block`: context, cleaned text, raw text and scope selector
value. -/
structure Block where
  Context : String
  Text : String
  Raw : String
  Scope : String

/-- The fields of a compiled `check.Check` consulted by the dispatcher:
severity level as an integer, scope selector value, and the `code` flag. -/
structure CheckEntry where
  Level : Int
  Scope : String
  Code : Bool

/-- The per-(file, rule) inputs `lintText` consults: the configured
minimum alert level, the file's normed extension, the result of
`f.QueryComments(name)` (in-text disablement, an external directive query
per the spec), the lookups `f.Checks[name]` and `l.Config.GChecks[name]`
(absent ↦ `none`), and the file's base styles. -/
structure DispatchEnv where
  minLevel : Int
  normedExt : String
  disabled : Bool
  fChecks : Option Bool
  gChecks : Option Bool
  baseStyles : List String

/-- Modelled from the spec: tag set of a `core.Selector` value
(`core.Selector` is not under `src/`; §4.2 describes a dot-separated set
of tags, the empty value meaning "any scope"). -/
def tagsOf (s : String) : List String :=
  if s == "" then [] else splitDot s

/-- Modelled from the spec: `core.Selector.Contains` — block scope `b`
satisfies rule scope `r` iff every tag of `r` appears among `b`'s tags,
the tag `text` being implied by every block (§4.2). -/
def selContains (b r : String) : Bool :=
  (tagsOf r).all (fun t => t == "text" || (tagsOf b).contains t)

/-- Text selection at the top of the `lintText` rule loop: rules with
`code: true` receive the block's raw text when the file's normed extension
is `.md`, `.adoc` or `.rst`, every other rule the cleaned text. -/
def chooseText (code : Bool) (normedExt : String) (blk : Block) : String :=
  let hasCode := StringInSlice normedExt [".md", ".adoc", ".rst"]
  if code && hasCode then blk.Raw else blk.Text

/-- The per-rule body of the `lintText` loop from `lint.go`, up to the
point where `chk.Rule(txt, f)` would run: returns `some txt` when the rule
is invoked on text `txt` and `none` when the rule is skipped, following
the code's sequence of `continue` conditions and its `run` flag. -/
def lintTextStep (env : DispatchEnv) (name : String) (chk : CheckEntry)
    (blk : Block) : Option String :=
  let txt := chooseText chk.Code env.normedExt blk
  if env.disabled || txt == "" then none
  else if decide (chk.Level < env.minLevel) || !selContains blk.Scope chk.Scope then
    none
  else
    match env.fChecks with
    | some false => none
    | some true => some txt
    | none =>
      match env.gChecks with
      | some false => none
      | some true => some txt
      | none =>
        if StringInSlice ((splitDot name).getD 0 "") env.baseStyles then some txt
        else none

/-- The enablement resolution order stated by the spec (§4.3/§8):
per-extension override, else global override, else membership of the
rule's style in the file's base styles. -/
def resolveEnabled (env : DispatchEnv) (style : String) : Bool :=
  match env.fChecks with
  | some v => v
  | none =>
    match env.gChecks with
    | some v => v
    | none => StringInSlice style env.baseStyles

/-- The invocation condition claimed by the spec (§8): severity at least
the minimum, scope satisfied, not disabled in-text, non-empty text, and
the rule enabled by the override/base-style resolution. -/
def specInvokes (env : DispatchEnv) (name : String) (chk : CheckEntry)
    (blk : Block) : Bool :=
  decide (env.minLevel ≤ chk.Level) && selContains blk.Scope chk.Scope &&
    !env.disabled && (chooseText chk.Code env.normedExt blk != "") &&
    resolveEnabled env ((splitDot name).getD 0 "")

/-- The per-file decision of the `filepath.Walk` callback in `lintFiles`
(`lint.go`): a path is scheduled for linting (a worker goroutine spawned)
only when the walk reported no error, the path is not a directory, the
glob matches, and the basename has none of the ignored prefixes
`[".", "_"]`. -/
def walkSchedules (walkErr isDir globMatch : Bool) (name : String) : Bool :=
  if walkErr || isDir then false
  else if !globMatch || hasAnyPrefixGo name [".", "_"] then false
  else true

/-- Sequence memory after a `checkConditional` block, stated declaratively:
the old memory followed by the first capture of every match of `second`
that has one. -/
def conditionalSeqsSpec (seqs : List String) (secondMatches : List (List String)) :
    List String :=
  seqs ++ secondMatches.filterMap
    (fun m => if 1 < m.length then some (m.getD 1 "") else none)

/-- Alerts of a `checkConditional` block, stated declaratively: one alert,
at the match's own location, for exactly those matches of `first` whose
text is neither in the sequence memory `mem` nor among the exceptions. -/
def conditionalAlertsSpec (txt : String) (chk : Conditional) (mem : List String)
    (firstLocs : List (List Int)) : List Alert :=
  (firstLocs.filter (fun loc =>
      let s := goSlice txt (loc.getD 0 0) (loc.getD 1 0)
      decide (¬ s ∈ mem ∧ ¬ s ∈ chk.Exceptions))).map
    (fun loc => { Check := chk.Name, Severity := chk.Level, Span := loc,
                  Link := chk.Link, Hide := false })

/-- The location of the last participating capturing group inside one
submatch-index list, stated declaratively as a backwards search. -/
def lastCapture (submat : List Int) : Option (List Int) :=
  ((withIdx 0 submat).reverse.find? capturePred).map
    (fun p => [p.2, submat.getD (p.1 + 1) 0])

/-- The location of the most recent participating capturing group over a
block's whole match list ( `[]` when no group participated). -/
def lastCaptureLoc (mats : List (List Int)) : List Int :=
  (mats.reverse.findSome? lastCapture).getD []

/-- A Repetition rule with `max = 1` and `ignorecase: true` (tokens
`[\w+]`), as in the spec's concrete scenario 4. -/
def repMaxOneEx : Repetition :=
  { Name := "vale.Repetition", Level := "warning", Link := "", Max := 1,
    Ignorecase := true }

/-- The same Repetition rule with `max = 0`. -/
def repMaxZeroEx : Repetition :=
  { Name := "vale.Repetition", Level := "warning", Link := "", Max := 0,
    Ignorecase := true }

/-- A concrete Occurrence rule (token `\bvery\b`, max 2). -/
def occEx : Occurrence :=
  { Name := "vale.Occ", Level := "warning", Link := "", Token := "\\bvery\\b",
    Max := 2 }

/-- A concrete Occurrence rule definition with `max = 0`. -/
def occZeroEx : Occurrence :=
  { Name := "vale.TooMany", Level := "warning", Link := "", Token := "x",
    Max := 0 }

/-- A compiled consistency pair (`either: color ↔ colour`), with generated
group names `p2`/`p3`, after `addConsistencyCheck` set `Extends` and
`Name`. -/
def consisEx : Consistency :=
  { Name := "vale.CC.color", Extends := "vale.CC", Level := "warning",
    Link := "" }

/-- Value of `r.SubexpNames()` for the compiled pair pattern
`\b(?:(?P<p2>color)|(?P<p3>colour))\b`. -/
def consisNamesEx : List String := ["", "p2", "p3"]

/-- The `subs` slice passed to `checkConsistency` for that pair. -/
def consisOptsEx : List String := ["p2", "p3"]

/-- The alert `checkConsistency` emits on the block `"colour"` below. -/
def consisAlertEx : Alert :=
  { Check := "vale.CC", Severity := "warning", Span := [0, 6], Link := "",
    Hide := false }

/-- A concrete substitution rule (swap `utilize → use`, no POS pattern). -/
def subChkEx : Substitution :=
  { Name := "vale.Sub", Level := "warning", Link := "", POS := "" }

/-- The alert `checkSubstitution` emits on `"We utilize tools."` below. -/
def subAlertEx : Alert :=
  { Check := "vale.Sub", Severity := "warning", Span := [3, 10], Link := "",
    Hide := false }

/-- A dispatch environment in which a rule is individually enabled for the
file's extension. -/
def dispatchEnvEx : DispatchEnv :=
  { minLevel := 0, normedExt := ".md", disabled := false,
    fChecks := some true, gChecks := none, baseStyles := [] }

/-- A compiled check with `code: true` at text scope. -/
def checkEntryEx : CheckEntry :=
  { Level := 1, Scope := "text", Code := true }

/-- A concrete block with distinct cleaned and raw text. -/
def blockEx : Block :=
  { Context := "", Text := "clean", Raw := "raw", Scope := "text" }

lemma StringInSlice_iff (a : String) (l : List String) :
    StringInSlice a l = true ↔ a ∈ l := by
  simp only [StringInSlice, List.any_eq_true, beq_iff_eq]
  constructor
  · rintro ⟨x, hx, rfl⟩; exact hx
  · intro h; exact ⟨a, h, rfl⟩

lemma StringInSlice_eq_decide (a : String) (l : List String) :
    StringInSlice a l = decide (a ∈ l) := by
  rw [Bool.eq_iff_iff]
  simp [StringInSlice_iff]

lemma cond_pred_eq (s : String) (mem ex : List String) :
    (!StringInSlice s mem && !StringInSlice s ex) =
      decide (¬ s ∈ mem ∧ ¬ s ∈ ex) := by
  rw [StringInSlice_eq_decide, StringInSlice_eq_decide, Bool.eq_iff_iff]
  simp

lemma condSeq_fold (sm : List (List String)) :
    ∀ seqs : List String,
      sm.foldl (fun acc mat => if 1 < mat.length then acc ++ [mat.getD 1 ""] else acc) seqs
        = conditionalSeqsSpec seqs sm := by
  induction sm with
  | nil => intro seqs; simp [conditionalSeqsSpec]
  | cons m l ih =>
    intro seqs
    simp only [List.foldl_cons]
    by_cases h : 1 < m.length
    · rw [if_pos h, ih]
      simp [conditionalSeqsSpec, List.filterMap_cons, h, List.append_assoc]
    · rw [if_neg h, ih]
      simp [conditionalSeqsSpec, List.filterMap_cons, h]

lemma condAlerts_fold (txt : String) (chk : Conditional) (mem : List String)
    (fl : List (List Int)) :
    ∀ acc : List Alert,
      fl.foldl (fun acc loc =>
        let s := goSlice txt (loc.getD 0 0) (loc.getD 1 0)
        if !StringInSlice s mem && !StringInSlice s chk.Exceptions then
          acc ++ [{ Check := chk.Name, Severity := chk.Level, Span := loc,
                    Link := chk.Link, Hide := false }]
        else acc) acc
      = acc ++ conditionalAlertsSpec txt chk mem fl := by
  induction fl with
  | nil => intro acc; simp [conditionalAlertsSpec]
  | cons loc l ih =>
    intro acc
    simp only [List.foldl_cons, conditionalAlertsSpec, List.filter_cons]
    rw [← cond_pred_eq (goSlice txt (loc.getD 0 0) (loc.getD 1 0)) mem chk.Exceptions]
    by_cases h : (!StringInSlice (goSlice txt (loc.getD 0 0) (loc.getD 1 0)) mem &&
        !StringInSlice (goSlice txt (loc.getD 0 0) (loc.getD 1 0)) chk.Exceptions) = true
    · simp only [h, if_pos]
      rw [ih]
      simp [conditionalAlertsSpec, List.append_assoc]
    · rw [Bool.not_eq_true] at h
      simp only [h, Bool.false_eq_true, if_neg, not_false_iff]
      rw [ih]
      simp [conditionalAlertsSpec]

/-- C7: the Conditional matcher first records the first capture of every
match of `second` into the file's sequence memory, then emits exactly one
alert, at the match's location, for each match of `first` whose matched
substring is neither in the (fully updated) sequence memory nor in the
rule's exceptions list. -/
theorem conditional_alert_characterization (txt : String) (chk : Conditional)
    (seqs : List String) (secondMatches : List (List String))
    (firstLocs : List (List Int)) :
    checkConditional txt chk seqs secondMatches firstLocs =
      (conditionalAlertsSpec txt chk (conditionalSeqsSpec seqs secondMatches) firstLocs,
       conditionalSeqsSpec seqs secondMatches) := by
  simp only [checkConditional]
  rw [condSeq_fold, condAlerts_fold]
  simp

lemma getLast?_eq_getD (l : List (List Int)) (h : l ≠ []) :
    l.getLast? = some (l.getD (l.length - 1) []) := by
  have hl : l.length - 1 < l.length := by
    cases l with
    | nil => exact absurd rfl h
    | cons a t => simp
  rw [List.getLast?_eq_getElem?, List.getD_eq_getElem?_getD,
    List.getElem?_eq_getElem hl]
  rfl

/-- C6: an Occurrence rule (whose registered limit is at least 1) emits no
alert when the match count is at most the limit, and exactly one alert —
spanning from the start of the first match to the end of the last match —
when the count exceeds it. -/
theorem occurrence_alert_iff_over_limit (chk : Occurrence)
    (locs : List (List Int)) (lim : Int) (hlim : 1 ≤ lim) :
    ((locs.length : Int) ≤ lim → checkOccurrence chk locs lim = []) ∧
    (lim < (locs.length : Int) →
      ∃ f l, locs.head? = some f ∧ locs.getLast? = some l ∧
        checkOccurrence chk locs lim =
          [{ Check := chk.Name, Severity := chk.Level,
             Span := [f.getD 0 0, l.getD 1 0], Link := chk.Link,
             Hide := false }]) := by
  constructor
  · intro h
    unfold checkOccurrence
    rw [if_neg]
    simp only [decide_eq_true_eq]
    omega
  · intro h
    have hne : locs ≠ [] := by
      intro he
      rw [he] at h
      simp at h
      omega
    obtain ⟨a, t, rfl⟩ : ∃ a t, locs = a :: t := by
      cases locs with
      | nil => exact absurd rfl hne
      | cons a t => exact ⟨a, t, rfl⟩
    refine ⟨a, (a :: t).getD ((a :: t).length - 1) [], rfl,
      getLast?_eq_getD _ hne, ?_⟩
    unfold checkOccurrence
    rw [if_pos]
    · rfl
    · simp only [decide_eq_true_eq]
      omega

/-- C6 (witness): with three matches `[[0,4],[5,9],[10,14]]`, limit 3
yields no alert and limit 2 yields the single alert spanning `[0, 14]`. -/
theorem occurrence_alert_iff_over_limit_witness :
    checkOccurrence occEx [[0, 4], [5, 9], [10, 14]] 3 = [] ∧
    (∃ f l, ([[0, 4], [5, 9], [10, 14]] : List (List Int)).head? = some f ∧
      ([[0, 4], [5, 9], [10, 14]] : List (List Int)).getLast? = some l ∧
      checkOccurrence occEx [[0, 4], [5, 9], [10, 14]] 2 =
        [{ Check := occEx.Name, Severity := occEx.Level,
           Span := [f.getD 0 0, l.getD 1 0], Link := occEx.Link,
           Hide := false }]) :=
  ⟨(occurrence_alert_iff_over_limit occEx [[0, 4], [5, 9], [10, 14]] 3
      (by decide)).1 (by decide),
   (occurrence_alert_iff_over_limit occEx [[0, 4], [5, 9], [10, 14]] 2
      (by decide)).2 (by decide)⟩

/-- C4 (counterexample): for the Repetition rule with tokens `[\w+]`,
`max = 1`, `ignorecase: true`, the input `"the the best"` yields no alert
at all — not the one alert the claim describes — because the loop only
fires once the consecutive-repeat count strictly exceeds `max`. -/
theorem repetition_concrete_max_one_counterexample :
    checkRepetition "the the best" repMaxOneEx (wordRuns "the the best") = [] ∧
    ¬ (checkRepetition "the the best" repMaxOneEx
        (wordRuns "the the best")).length = 1 := by
  decide

/-- C4 (amended): for the Repetition rule with tokens `[\w+]`, `max = 0`,
`ignorecase: true`, the input `"the the best"` yields exactly one alert
spanning the two `the` tokens (offsets `[0, 7]`), and `"the best"` yields
no alert. -/
theorem repetition_concrete_max_zero :
    checkRepetition "the the best" repMaxZeroEx (wordRuns "the the best") =
      [{ Check := "vale.Repetition", Severity := "warning", Span := [0, 7],
         Link := "", Hide := false }] ∧
    checkRepetition "the best" repMaxZeroEx (wordRuns "the best") = [] := by
  decide

/-- C3 (counterexample): the pattern `(?:a)\(` has two `(` characters, one
`?:` and one `\(`, so the claim's condition (`(` count equals `?:` count
plus `\(` count) accepts it — yet `addSubstitutionCheck` refuses it, since
the code requires the `(` count to equal one of the two counts alone. -/
theorem substitution_swap_filter_counterexample :
    countSubstr "(?:a)\\(" "(" =
      countSubstr "(?:a)\\(" "?:" + countSubstr "(?:a)\\(" "\\(" ∧
    buildSwap [("(?:a)\\(", "x")] = ("", []) := by
  decide

lemma buildSwap_fold (swap : List (String × String)) :
    ∀ st : String × List String,
      (swap.foldl swapStep st).2 =
        st.2 ++ ((swap.filter (fun pr =>
          countSubstr pr.1 "(" == countSubstr pr.1 "?:" ||
          countSubstr pr.1 "(" == countSubstr pr.1 "\\(")).map Prod.snd) := by
  induction swap with
  | nil => intro st; simp
  | cons pr l ih =>
    intro st
    simp only [List.foldl_cons, List.filter_cons]
    cases h1 : (countSubstr pr.1 "(" == countSubstr pr.1 "?:") <;>
    cases h2 : (countSubstr pr.1 "(" == countSubstr pr.1 "\\(") <;>
      simp [swapStep, h1, h2, bne, ih, List.append_assoc]

/-- C3 (amended): `addSubstitutionCheck` accepts exactly those `swap`
patterns whose `(` count equals their `?:` count or equals their escaped
`\(` count; every other pattern is omitted from the replacement table. -/
theorem substitution_swap_filter_accepts_iff (swap : List (String × String)) :
    (buildSwap swap).2 =
      ((swap.filter (fun pr =>
        countSubstr pr.1 "(" == countSubstr pr.1 "?:" ||
        countSubstr pr.1 "(" == countSubstr pr.1 "\\(")).map Prod.snd) := by
  unfold buildSwap
  rw [buildSwap_fold]
  simp

/-- C9: the walk callback of `lintFiles` never schedules a file whose
basename begins with `.` or with `_`, whatever the glob decided. -/
theorem hidden_files_never_scheduled (walkErr isDir globMatch : Bool)
    (name : String)
    (h : strStarts name "." = true ∨ strStarts name "_" = true) :
    walkSchedules walkErr isDir globMatch name = false := by
  have hp : hasAnyPrefixGo name [".", "_"] = true := by
    rcases h with h | h <;> simp [hasAnyPrefixGo, h]
  cases walkErr <;> cases isDir <;> cases globMatch <;>
    simp [walkSchedules, hp]

/-- C9 (witness): the dotfile `.git` is not scheduled even though the glob
matches and the walk reported no error. -/
theorem hidden_files_never_scheduled_witness :
    walkSchedules false false true ".git" = false :=
  hidden_files_never_scheduled false false true ".git" (Or.inl (by decide))

/-- C10: an Occurrence rule whose `max` is below 1, or whose token pattern
failed to compile, is never registered: `addOccurrenceCheck` leaves the
check registry unchanged, so the rule can never be invoked on any text. -/
theorem occurrence_low_max_not_registered (compileOk : Bool)
    (chk : Occurrence) (m : List (String × Occurrence))
    (h : chk.Max < 1 ∨ compileOk = false) :
    addOccurrenceCheck compileOk chk m = m := by
  rcases h with h | h
  · have hd : decide (chk.Max ≥ 1) = false := by
      simp only [decide_eq_false_iff_not]
      omega
    simp [addOccurrenceCheck, hd]
  · simp [addOccurrenceCheck, h]

/-- C10 (witness): an Occurrence definition with `max = 0` leaves the
empty registry empty even when its pattern compiles. -/
theorem occurrence_low_max_not_registered_witness :
    addOccurrenceCheck true occZeroEx [] = [] :=
  occurrence_low_max_not_registered true occZeroEx [] (Or.inl (by decide))

lemma consisStep_fold_loc (submat : List Int) (names : List String)
    (l : List (Nat × Int)) :
    ∀ st : List Int × List String,
      (l.foldl (consisStep submat names) st).1 =
        ((l.reverse.find? capturePred).map
          (fun p => [p.2, submat.getD (p.1 + 1) 0])).getD st.1 := by
  induction l using List.reverseRecOn with
  | nil => intro st; simp
  | append_singleton l p ih =>
    intro st
    rw [List.foldl_append]
    simp only [List.foldl_cons, List.foldl_nil, List.reverse_append,
      List.reverse_singleton, List.singleton_append]
    by_cases h : capturePred p = true
    · rw [List.find?_cons_of_pos _ h]
      simp [consisStep, h]
    · rw [List.find?_cons_of_neg _ (by simpa using h)]
      rw [Bool.not_eq_true] at h
      simp [consisStep, h, ih]

lemma consisBlockFold_loc (names : List String) (ms : List (List Int)) :
    ∀ st : List Int × List String,
      (ms.foldl (consisBlockFold names) st).1 =
        (ms.reverse.findSome? lastCapture).getD st.1 := by
  induction ms using List.reverseRecOn with
  | nil => intro st; simp
  | append_singleton ms m ih =>
    intro st
    rw [List.foldl_append]
    simp only [List.foldl_cons, List.foldl_nil, List.reverse_append,
      List.reverse_singleton, List.singleton_append]
    rw [show consisBlockFold names (ms.foldl (consisBlockFold names) st) m =
        (withIdx 0 m).foldl (consisStep m names)
          (ms.foldl (consisBlockFold names) st) from rfl]
    rw [consisStep_fold_loc]
    cases hm : lastCapture m with
    | none =>
      rw [List.findSome?_cons_of_isNone _ (by simp [hm])]
      unfold lastCapture at hm
      rw [hm]
      simp [ih]
    | some loc =>
      rw [List.findSome?_cons_of_isSome _ (by simp [hm])]
      have hm2 : lastCapture m = some loc := hm
      unfold lastCapture at hm
      rw [hm, hm2]
      simp

/-- C1 (amended): for every block, `checkConsistency` emits at most one
alert per `either` pair, and an emitted alert's span is the location of
the last participating capturing-group match within that block.  (The
"at most one per file" half of the claim fails; see the counterexample.) -/
theorem consistency_alert_per_block_span_last_capture (txt : String)
    (chk : Consistency) (names opts seqs : List String)
    (mats : List (List Int)) :
    (checkConsistency txt chk names opts seqs mats).1.length ≤ 1 ∧
    ∀ a ∈ (checkConsistency txt chk names opts seqs mats).1,
      a.Span = lastCaptureLoc mats := by
  have hloc : (mats.foldl (consisBlockFold names) ([], seqs)).1 =
      lastCaptureLoc mats := by
    rw [consisBlockFold_loc]
    rfl
  unfold checkConsistency
  by_cases hc : (!mats.isEmpty &&
      AllStringsInSlice opts (mats.foldl (consisBlockFold names) ([], seqs)).2) = true
  · simp only [hc, if_true]
    refine ⟨by simp, ?_⟩
    intro a ha
    simp only [List.mem_singleton] at ha
    rw [ha, ← hloc]
  · rw [Bool.not_eq_true] at hc
    simp [hc]

/-- C1 (witness): on the single block `"colour"` with `p2` already in the
file's sequence memory, at most one alert is emitted and the emitted
alert's span `[0, 6]` is the last capturing-group location of the block. -/
theorem consistency_alert_per_block_span_last_capture_witness :
    (checkConsistency "colour" consisEx consisNamesEx consisOptsEx ["p2"]
      [[0, 6, -1, -1, 0, 6]]).1.length ≤ 1 ∧
    consisAlertEx.Span = lastCaptureLoc [[0, 6, -1, -1, 0, 6]] :=
  ⟨(consistency_alert_per_block_span_last_capture "colour" consisEx
      consisNamesEx consisOptsEx ["p2"] [[0, 6, -1, -1, 0, 6]]).1,
   (consistency_alert_per_block_span_last_capture "colour" consisEx
      consisNamesEx consisOptsEx ["p2"] [[0, 6, -1, -1, 0, 6]]).2
     consisAlertEx (by decide)⟩

/-- C1 (counterexample): a consistency pair can alert more than once per
file.  With blocks `"color"`, `"colour"`, `"color"` (match data of the
compiled pattern for the pair `color ↔ colour`), the second and the third
block each emit an alert: once both group names are in the file's sequence
memory, every later block containing a match fires again. -/
theorem consistency_two_alerts_per_file_counterexample :
    (consistencyFile consisEx consisNamesEx consisOptsEx
      [("color", [[0, 5, 0, 5, -1, -1]]), ("colour", [[0, 6, -1, -1, 0, 6]]),
       ("color", [[0, 5, 0, 5, -1, -1]])] []).1.length = 2 ∧
    ¬ (consistencyFile consisEx consisNamesEx consisOptsEx
      [("color", [[0, 5, 0, 5, -1, -1]]), ("colour", [[0, 6, -1, -1, 0, 6]]),
       ("color", [[0, 5, 0, 5, -1, -1]])] []).1.length ≤ 1 := by
  decide

lemma mem_withIdx_getD {α : Type} (d : α) (l : List α) :
    ∀ (n : Nat) (p : Nat × α), p ∈ withIdx n l →
      n ≤ p.1 ∧ l.getD (p.1 - n) d = p.2 := by
  induction l with
  | nil => intro n p hp; simp [withIdx] at hp
  | cons a t ih =>
    intro n p hp
    simp only [withIdx, List.mem_cons] at hp
    rcases hp with rfl | hp
    · simp
    · obtain ⟨h1, h2⟩ := ih (n + 1) p hp
      refine ⟨by omega, ?_⟩
      have hn : p.1 - n = (p.1 - (n + 1)) + 1 := by omega
      rw [hn, List.getD_cons_succ]
      exact h2

lemma subStep_fold_mem (txt : String) (chk : Substitution) (repl : List String)
    (oracle : List Int → String → String → Bool) (submat : List Int)
    (l : List (Nat × Int)) :
    ∀ (st : Bool × List Alert) (a : Alert),
      a ∈ (l.foldl (subStep txt chk repl oracle submat) st).2 →
      a ∈ st.2 ∨ ∃ p ∈ l, capturePred p = true ∧
        repl.getD (p.1 / 2 - 1) "" ≠
          trimGo (goSlice txt p.2 (submat.getD (p.1 + 1) 0)) ∧
        a.Span = [p.2, submat.getD (p.1 + 1) 0] := by
  induction l with
  | nil => intro st a ha; exact Or.inl ha
  | cons q l ih =>
    intro st a ha
    rw [List.foldl_cons] at ha
    rcases ih _ a ha with h | ⟨p, hp, hcond⟩
    · by_cases hq : capturePred q = true
      · simp only [subStep, hq, if_true, List.getD_cons_zero,
          List.getD_cons_succ] at h
        by_cases hne : (repl.getD (q.1 / 2 - 1) "" !=
            trimGo (goSlice txt q.2 (submat.getD (q.1 + 1) 0))) = true
        · rw [if_pos hne] at h
          simp only [List.mem_append, List.mem_singleton] at h
          rcases h with h | rfl
          · exact Or.inl h
          · exact Or.inr ⟨q, List.mem_cons_self q l, hq,
              by simpa using hne, rfl⟩
        · rw [if_neg hne] at h
          exact Or.inl h
      · simp only [subStep, hq, if_false] at h
        rw [Bool.not_eq_true] at hq
        simp only [subStep, hq, Bool.false_eq_true, if_neg,
          not_false_iff] at h
        exact Or.inl h
    · exact Or.inr ⟨p, List.mem_cons_of_mem _ hp, hcond⟩

lemma checkSubstitution_fold_mem (txt : String) (chk : Substitution)
    (repl : List String) (oracle : List Int → String → String → Bool)
    (ms : List (List Int)) :
    ∀ (st : Bool × List Alert) (a : Alert),
      a ∈ (ms.foldl (fun st submat =>
            (withIdx 0 submat).foldl (subStep txt chk repl oracle submat) st)
          st).2 →
      a ∈ st.2 ∨ ∃ submat ∈ ms, ∃ p ∈ withIdx 0 submat, capturePred p = true ∧
        repl.getD (p.1 / 2 - 1) "" ≠
          trimGo (goSlice txt p.2 (submat.getD (p.1 + 1) 0)) ∧
        a.Span = [p.2, submat.getD (p.1 + 1) 0] := by
  induction ms with
  | nil => intro st a ha; exact Or.inl ha
  | cons m ms ih =>
    intro st a ha
    rw [List.foldl_cons] at ha
    rcases ih _ a ha with h | ⟨sm, hsm, rest⟩
    · rcases subStep_fold_mem txt chk repl oracle m (withIdx 0 m) st a h with
        h2 | ⟨p, hp, hcond⟩
      · exact Or.inl h2
      · exact Or.inr ⟨m, List.mem_cons_self m ms, p, hp, hcond⟩
    · exact Or.inr ⟨sm, List.mem_cons_of_mem _ hsm, rest⟩

/-- C5: every alert `checkSubstitution` emits comes from a participating
capturing group whose expected replacement differs from the observed
(trimmed) matched text; in particular no alert is ever emitted for a group
whose trimmed match equals its replacement. -/
theorem substitution_alert_only_when_differs (txt : String)
    (chk : Substitution) (repl : List String)
    (oracle : List Int → String → String → Bool) (mats : List (List Int))
    (a : Alert) (ha : a ∈ checkSubstitution txt chk repl oracle mats) :
    ∃ submat ∈ mats, ∃ idx : Nat, 0 < idx ∧ idx % 2 = 0 ∧
      submat.getD idx (-1) ≠ -1 ∧
      repl.getD (idx / 2 - 1) "" ≠
        trimGo (goSlice txt (submat.getD idx (-1)) (submat.getD (idx + 1) 0)) ∧
      a.Span = [submat.getD idx (-1), submat.getD (idx + 1) 0] := by
  unfold checkSubstitution at ha
  by_cases he : mats.isEmpty
  · simp [he] at ha
  · rw [if_neg he] at ha
    rcases checkSubstitution_fold_mem txt chk repl oracle mats (false, []) a ha
      with h | ⟨sm, hsm, p, hp, hcap, hrepl, hspan⟩
    · simp at h
    · obtain ⟨-, hgd⟩ := mem_withIdx_getD (-1 : Int) sm 0 p hp
      rw [Nat.sub_zero] at hgd
      simp only [capturePred, Bool.and_eq_true, bne_iff_ne,
        decide_eq_true_eq] at hcap
      exact ⟨sm, hsm, p.1, hcap.1.2, hcap.2, by rw [hgd]; exact hcap.1.1,
        by rw [hgd]; exact hrepl, by rw [hgd]; exact hspan⟩

/-- C5 (witness): on `"We utilize tools."` with replacement table
`["use"]` and match data `[[3,10,3,10]]`, the emitted alert (span
`[3, 10]`) indeed comes from the group whose trimmed match `"utilize"`
differs from its replacement `"use"`. -/
theorem substitution_alert_only_when_differs_witness :
    ∃ submat ∈ [[(3 : Int), 10, 3, 10]], ∃ idx : Nat, 0 < idx ∧ idx % 2 = 0 ∧
      submat.getD idx (-1) ≠ -1 ∧
      ["use"].getD (idx / 2 - 1) "" ≠
        trimGo (goSlice "We utilize tools." (submat.getD idx (-1))
          (submat.getD (idx + 1) 0)) ∧
      subAlertEx.Span = [submat.getD idx (-1), submat.getD (idx + 1) 0] :=
  substitution_alert_only_when_differs "We utilize tools." subChkEx ["use"]
    (fun _ _ _ => false) [[3, 10, 3, 10]] subAlertEx (by decide)

/-- C2: the `lintText` loop invokes a rule on a block exactly when the
rule's level is at least the configured minimum, its scope is contained in
the block's scope, it is not disabled by an in-text directive, the text to
evaluate is non-empty, and the per-extension override, else the global
override, else membership of the rule's style in the file's base styles,
enables it. -/
theorem dispatcher_invokes_iff (env : DispatchEnv) (name : String)
    (chk : CheckEntry) (blk : Block) :
    (lintTextStep env name chk blk).isSome = specInvokes env name chk blk := by
  obtain ⟨minL, ext, dis, fC, gC, bS⟩ := env
  have hA : decide (minL ≤ chk.Level) = !decide (chk.Level < minL) := by
    by_cases h : chk.Level < minL
    · rw [decide_eq_true h]
      simp only [Bool.not_true, decide_eq_false_iff_not]
      omega
    · rw [decide_eq_false h]
      simp only [Bool.not_false, decide_eq_true_eq]
      omega
  simp only [lintTextStep, specInvokes, resolveEnabled, hA]
  cases dis <;>
  cases hT : (chooseText chk.Code ext blk == "") <;>
  cases hL : decide (chk.Level < minL) <;>
  cases hS : selContains blk.Scope chk.Scope <;>
  rcases fC with _ | (_ | _) <;>
  rcases gC with _ | (_ | _) <;>
  cases hB : StringInSlice ((splitDot name).getD 0 "") bS <;>
  simp [hT, hL, hS, hB, bne]

lemma lintTextStep_some_eq (env : DispatchEnv) (name : String)
    (chk : CheckEntry) (blk : Block) (t : String)
    (h : lintTextStep env name chk blk = some t) :
    t = chooseText chk.Code env.normedExt blk := by
  unfold lintTextStep at h
  repeat' split at h
  all_goals simp_all

/-- C8: whenever the dispatcher invokes a rule on some text, that text is
the block's raw text exactly when the rule carries `code: true` and the
file's normed extension is `.md`, `.adoc` or `.rst`; in every other case
it is the block's cleaned text. -/
theorem code_rule_raw_text_selection (env : DispatchEnv) (name : String)
    (chk : CheckEntry) (blk : Block) (t : String)
    (h : lintTextStep env name chk blk = some t) :
    (chk.Code = true ∧ env.normedExt ∈ [".md", ".adoc", ".rst"] →
      t = blk.Raw) ∧
    (¬ (chk.Code = true ∧ env.normedExt ∈ [".md", ".adoc", ".rst"]) →
      t = blk.Text) := by
  have ht := lintTextStep_some_eq env name chk blk t h
  subst ht
  constructor
  · rintro ⟨hc, hm⟩
    have hs : StringInSlice env.normedExt [".md", ".adoc", ".rst"] = true :=
      (StringInSlice_iff _ _).mpr hm
    simp [chooseText, hc, hs]
  · intro hn
    unfold chooseText
    by_cases hc : chk.Code = true
    · have hm : ¬ env.normedExt ∈ [".md", ".adoc", ".rst"] :=
        fun hm => hn ⟨hc, hm⟩
      have hs : StringInSlice env.normedExt [".md", ".adoc", ".rst"] = false := by
        rw [Bool.eq_false_iff]
        intro hx
        exact hm ((StringInSlice_iff _ _).mp hx)
      simp [hc, hs]
    · rw [Bool.not_eq_true] at hc
      simp [hc]

/-- C8 (witness): with `code: true`, normed extension `.md` selects the
raw text `"raw"` of the concrete block, and normed extension `.py` selects
its cleaned text `"clean"`. -/
theorem code_rule_raw_text_selection_witness :
    ("raw" : String) = blockEx.Raw ∧ ("clean" : String) = blockEx.Text :=
  ⟨(code_rule_raw_text_selection dispatchEnvEx "vale.X" checkEntryEx blockEx
      "raw" (by decide)).1 ⟨rfl, by decide⟩,
   (code_rule_raw_text_selection { dispatchEnvEx with normedExt := ".py" }
      "vale.X" checkEntryEx blockEx "clean" (by decide)).2 (by decide)⟩

end Vale
